import Mathlib

/-!
Verification of cpuloadgen (Carton/cpuloadgen, src/cpuloadgen.c) against its
natural-language specification.

The embedding models the per-core duty-cycle load generator `loadgen`, the
busy primitive `workload`, the pthread entry point `thread_loadgen`, and the
spawn/join loops of `main`.  Timing calls (`dtime`, `gettimeofday`) are
modelled as oracles: an `Env` supplies the value returned by the k-th call of
each primitive.  The C `double` arithmetic of `loadgen` is modelled exactly
over ℚ; the C integer conversions (`long` → `unsigned int` at the `loadgen`
call site, `double` → `unsigned int` at the `usleep` call site) are modelled
explicitly.
-/

namespace Cpuloadgen

/-- Oracle for the timing primitives used by `loadgen`:
`dtime k` is the value (in seconds) returned by the k-th call to `dtime()`
inside the loop, and `tod k` is the seconds value derived from the k-th
`gettimeofday` call (`tv_sec + tv_usec * 1e-6`); `tod 0` is the reading taken
at `loadgen` entry (`tv_cpuloadgen_start`, line 362).  `dtime` is declared
`extern` in the source (wall-clock based, not monotonic), so its readings are
unconstrained rationals. -/
structure Env where
  dtime : ℕ → ℚ
  tod : ℕ → ℚ

/-- Observable actions of one `loadgen` loop iteration: a busy burst
(`workload(iterations)`) or an idle sleep (`usleep(us)` microseconds). -/
inductive Event where
  | burst (iterations : ℕ)
  | sleep (us : ℕ)
  deriving DecidableEq

/-- C conversion of a (possibly negative) integer to `unsigned int`:
reduction modulo 2^32 (C11 6.3.1.3).  This is applied to the global
`long int duration` (initialised to -1, line 82) when it is passed to the
`unsigned int duration` parameter of `loadgen` (line 177). -/
def intToU32 (d : ℤ) : ℕ := (Int.emod d (2 ^ 32)).toNat

/-- C truncation of a `double` toward zero, the first step of the
`(unsigned int)` cast at line 392. -/
def ratTrunc (q : ℚ) : ℤ := if 0 ≤ q then ⌊q⌋ else -⌊-q⌋

/-- The argument actually handed to `usleep` at line 392:
`usleep((unsigned int)(idle_time_us))`.  For a negative `idle_time_us` the
C cast is implementation-defined/undefined; following the spec's description
of the reference behaviour ("truncates to an unsigned value, producing an
implementation-defined huge sleep") it is modelled as the two's-complement
wrap of the truncated value. -/
def usleepArg (q : ℚ) : ℕ := (Int.emod (ratTrunc q) (2 ^ 32)).toNat

/-- Lines 371-375: `active_time_us = (workload_end_time - workload_start_time) * 1.0e6`,
where the two `dtime()` calls of iteration k are the (2k)-th and (2k+1)-th. -/
def active_time_us (env : Env) (k : ℕ) : ℚ :=
  (env.dtime (2 * k + 1) - env.dtime (2 * k)) * 1000000

/-- Line 380-381: `total_time_us = active_time_us * (100.0 / (double) (load + 1))`. -/
def total_time_us (load : ℕ) (a : ℚ) : ℚ := a * (100 / ((load : ℚ) + 1))

/-- Line 384: `idle_time_us = total_time_us - active_time_us`. -/
def idle_time_us (load : ℕ) (a : ℚ) : ℚ := total_time_us load a - a

/-- The events of loop iteration k of `loadgen` (0-based).  Line 368: the
mode test is `load != 100`; in that case the iteration is a 50000-iteration
burst followed by `usleep` of the computed idle time (lines 371-392),
otherwise it is a single 1000000-iteration burst (line 419). -/
def iterEvents (env : Env) (load : ℕ) (k : ℕ) : List Event :=
  if load ≠ 100 then
    [Event.burst 50000,
     Event.sleep (usleepArg (idle_time_us load (active_time_us env k)))]
  else
    [Event.burst 1000000]

/-- The loop-exit test run at the end of iteration k (identical in both
branches, lines 413-415 and 425-427):
`(duration != 0) && (time_us - loadgen_start_time_us) >= duration`,
where `time_us` is the fresh `gettimeofday` reading `tod (k+1)` and
`loadgen_start_time_us` is `tod 0`. -/
def exitCheck (env : Env) (duration : ℕ) (k : ℕ) : Bool :=
  decide (duration ≠ 0) && decide ((duration : ℚ) ≤ env.tod (k + 1) - env.tod 0)

/-- Fuel-indexed run of the `while (1)` loop of `loadgen` starting at
iteration k: returns the trace of events and, if the loop exited within the
given fuel, `some n` where n is the total number of iterations executed
(so the loop broke at the end of iteration n-1).  `none` means the fuel was
exhausted with the loop still running. -/
def loadgenRun (env : Env) (load duration : ℕ) : ℕ → ℕ → List Event × Option ℕ
  | 0, _ => ([], none)
  | fuel + 1, k =>
    if exitCheck env duration k then
      (iterEvents env load k, some (k + 1))
    else
      (iterEvents env load k ++ (loadgenRun env load duration fuel (k + 1)).1,
       (loadgenRun env load duration fuel (k + 1)).2)

/-- Lines 435-440: `workload(iterations)` runs `sqrt(rand())` once per
iteration.  `rand()` is modelled as a stream `rands` read at position `pos`;
the function returns, in order, the pseudo-random inputs whose square roots
were taken (the results themselves are discarded by the C code). -/
def workload (rands : ℕ → ℕ) (pos : ℕ) : ℕ → List ℕ
  | 0 => []
  | n + 1 => rands pos :: workload rands (pos + 1) n

/-- Result of `thread_loadgen` (lines 170-184): either `loadgen` was invoked
with the given arguments, or the invalid-cpu error was reported and the
thread exited without generating load. -/
inductive ThreadResult where
  | ran (cpu load duration : ℕ)
  | invalidCpu (cpu : ℕ)
  deriving DecidableEq

/-- Lines 170-184: the pthread wrapper reads its cpu id, and calls
`loadgen(cpu, cpuloads[cpu], duration)` only if `cpu < (unsigned int)cpu_count`
(line 176), otherwise prints the invalid-cpu error.  The `int` load entry and
the `long int` duration are converted to the `unsigned int` parameters of
`loadgen`. -/
def thread_loadgen (cpu_count : ℕ) (cpuloads : ℕ → ℤ) (dur : ℤ) (cpu : ℕ) :
    ThreadResult :=
  if cpu < cpu_count then
    ThreadResult.ran cpu (intToU32 (cpuloads cpu)) (intToU32 dur)
  else
    ThreadResult.invalidCpu cpu

/-- Indices for which `main`'s spawn loop (lines 284-305) creates a thread:
every i < cpu_count with `cpuloads[i] != -1` (line 286 skips the others) and
whose `pthread_create` succeeded (`ok i`; on failure line 303 continues). -/
def startedTasks (cpuloads : List ℤ) (ok : ℕ → Bool) : List ℕ :=
  (List.range cpuloads.length).filter
    (fun i => decide (cpuloads.getD i (-1) ≠ -1) && ok i)

/-- Indices joined by `main`'s join loop (lines 307-312): every i < cpu_count
with `cpuloads[i] != -1`. -/
def joinedTasks (cpuloads : List ℤ) : List ℕ :=
  (List.range cpuloads.length).filter (fun i => decide (cpuloads.getD i (-1) ≠ -1))

/-- Timestamped trace of the spawn handoff protocol of `main` and
`thread_loadgen`, for the m threads actually spawned, in spawn order.
For the k-th spawned thread: `val k` is the core index stored into the local
`cpu` at line 298 (under `mutex1`, locked at line 297), at global time
`wr k`; the thread copies the shared cell at line 174 at time `rd k`; it
releases `mutex1` at line 175 at time `ul k`.  Because the orchestrator's
next `pthread_mutex_lock` must wait for that release, the next write `wr (k+1)`
comes after `ul k`. -/
structure SpawnTrace where
  m : ℕ
  val : ℕ → ℕ
  wr : ℕ → ℕ
  rd : ℕ → ℕ
  ul : ℕ → ℕ

/-- The ordering facts forced by program order and by the `mutex1` handoff
(lock at line 297 in `main`, unlock at line 175 in the thread): each thread
reads after its value was written and before it unlocks, and the next write
happens only after the previous unlock. -/
def wellSynced (s : SpawnTrace) : Prop :=
  ∀ k, k < s.m →
    s.wr k < s.rd k ∧ s.rd k < s.ul k ∧ (k + 1 < s.m → s.ul k < s.wr (k + 1))

/-- Index of the write whose value the shared cell holds at time t: the
latest write at or before t (writes are totally ordered; under `wellSynced`
their times are strictly increasing, so the largest qualifying index is the
latest write). -/
def lastWriteIdx (s : SpawnTrace) (t : ℕ) : ℕ :=
  (((List.range s.m).filter (fun j => decide (s.wr j ≤ t))).foldl max 0)

/-- The core index the k-th spawned thread copies into its private `cpu`
variable at line 174: the value of the shared cell at its read time. -/
def observed (s : SpawnTrace) (k : ℕ) : ℕ := s.val (lastWriteIdx s (s.rd k))

/-- Concrete environment used to exercise the loop theorems: the clock
advances by one second per reading. -/
def envStep : Env := ⟨fun _ => 0, fun k => (k : ℚ)⟩

/-- Concrete environment in which the clock jumps by 4294967295 seconds
between the first two readings. -/
def envHuge : Env := ⟨fun _ => 0, fun k => 4294967295 * (k : ℚ)⟩

/-- Concrete spawn trace: two threads, core indices 0 and 1, with the
interleaving forced by the mutex handoff. -/
def traceTwo : SpawnTrace :=
  ⟨2, fun k => k, fun k => 3 * k, fun k => 3 * k + 1, fun k => 3 * k + 2⟩

end Cpuloadgen

namespace Cpuloadgen

/-- Unfolding of the exit status of one unit of fuel. -/
theorem loadgenRun_snd_succ (env : Env) (load duration fuel k : ℕ) :
    (loadgenRun env load duration (fuel + 1) k).2 =
      if exitCheck env duration k then some (k + 1)
      else (loadgenRun env load duration fuel (k + 1)).2 := by
  rw [loadgenRun]
  split <;> rfl

/-- If the exit test first fires at iteration k + n, the loop started at
iteration k exits with n + 1 iterations of fuel, having run iterations
k .. k + n. -/
theorem loadgenRun_exits_at (env : Env) (load duration : ℕ) :
    ∀ n k, exitCheck env duration (k + n) = true →
      (∀ j, j < n → exitCheck env duration (k + j) = false) →
      (loadgenRun env load duration (n + 1) k).2 = some (k + n + 1) := by
  intro n
  induction n with
  | zero =>
    intro k hk _
    rw [Nat.add_zero] at hk
    rw [loadgenRun_snd_succ, hk]
    simp
  | succ n ih =>
    intro k hk hprev
    have h0 : exitCheck env duration k = false := by
      have := hprev 0 (Nat.succ_pos n)
      simpa using this
    rw [loadgenRun_snd_succ, h0]
    simp only [Bool.false_eq_true, if_false]
    have h1 : k + 1 + n = k + (n + 1) := by omega
    have h2 : exitCheck env duration (k + 1 + n) = true := by rw [h1]; exact hk
    have h3 : ∀ j, j < n → exitCheck env duration (k + 1 + j) = false := by
      intro j hj
      have : k + 1 + j = k + (j + 1) := by omega
      rw [this]
      exact hprev (j + 1) (by omega)
    have := ih (k + 1) h2 h3
    rw [this]
    congr 1
    omega

/-- Any successful exit of the loop identifies the first iteration at which
the exit test fired. -/
theorem loadgenRun_some_spec (env : Env) (load duration : ℕ) :
    ∀ fuel k m, (loadgenRun env load duration fuel k).2 = some m →
      ∃ j, j < fuel ∧ m = k + j + 1 ∧ exitCheck env duration (k + j) = true ∧
        ∀ i, i < j → exitCheck env duration (k + i) = false := by
  intro fuel
  induction fuel with
  | zero =>
    intro k m hm
    simp [loadgenRun] at hm
  | succ n ih =>
    intro k m hm
    rw [loadgenRun_snd_succ] at hm
    by_cases hc : exitCheck env duration k
    · rw [hc] at hm
      simp only [if_true, Option.some.injEq] at hm
      refine ⟨0, Nat.succ_pos n, by omega, by simpa using hc, ?_⟩
      intro i hi
      omega
    · rw [Bool.eq_false_iff.mpr hc] at hm
      simp only [Bool.false_eq_true, if_false] at hm
      obtain ⟨j, hj, hmj, hcj, hprev⟩ := ih (k + 1) m hm
      refine ⟨j + 1, by omega, by omega, ?_, ?_⟩
      · have : k + 1 + j = k + (j + 1) := by omega
        rwa [this] at hcj
      · intro i hi
        match i with
        | 0 => simpa using Bool.eq_false_iff.mpr hc
        | i + 1 =>
          have : k + 1 + i = k + (i + 1) := by omega
          rw [← this]
          exact hprev i (by omega)

/-- With duration 0 the exit test never fires and the loop never exits. -/
theorem loadgenRun_zero_duration (env : Env) (load : ℕ) :
    ∀ fuel k, (loadgenRun env load 0 fuel k).2 = none := by
  intro fuel
  induction fuel with
  | zero =>
    intro k
    rfl
  | succ n ih =>
    intro k
    rw [loadgenRun_snd_succ]
    have h0 : exitCheck env 0 k = false := by simp [exitCheck]
    rw [h0]
    simp only [Bool.false_eq_true, if_false]
    exact ih (k + 1)

/-- The full-load trace is a run of 1000000-iteration bursts. -/
theorem loadgenRun_full_trace (env : Env) (duration : ℕ) :
    ∀ fuel k, (loadgenRun env 100 duration fuel k).1 =
      List.replicate (loadgenRun env 100 duration fuel k).1.length
        (Event.burst 1000000) := by
  intro fuel
  induction fuel with
  | zero =>
    intro k
    rfl
  | succ n ih =>
    intro k
    rw [loadgenRun]
    by_cases hc : exitCheck env duration k
    · simp [hc, iterEvents]
    · simp only [Bool.eq_false_iff.mpr hc, Bool.false_eq_true, if_false]
      simp only [iterEvents, ne_eq, not_true_eq_false, if_false, List.cons_append,
        List.nil_append, List.length_cons, List.replicate_succ, List.cons.injEq,
        true_and]
      exact ih (k + 1)

/-- C3: for every positive duration, provided the wall clock eventually shows
an elapsed time of at least the duration (real time advances), the loop
(either mode: `load` is arbitrary, and both branches run the identical exit
test on a fresh clock reading after each iteration) terminates, exiting at
the first check at which elapsed time since loop start reaches the duration:
it exits after exactly n + 1 iterations where n is that first check, and no
run can exit with any other iteration count. -/
theorem c3_terminates_first_check (env : Env) (load duration : ℕ)
    (hd : 0 < duration)
    (hclk : ∃ k, (duration : ℚ) ≤ env.tod (k + 1) - env.tod 0) :
    ∃ n, exitCheck env duration n = true ∧
      (∀ j, j < n → exitCheck env duration j = false) ∧
      (loadgenRun env load duration (n + 1) 0).2 = some (n + 1) ∧
      (∀ fuel m, (loadgenRun env load duration fuel 0).2 = some m →
        m = n + 1) := by
  have hd0 : duration ≠ 0 := Nat.pos_iff_ne_zero.mp hd
  have hEC : ∀ j, exitCheck env duration j = true ↔
      (duration : ℚ) ≤ env.tod (j + 1) - env.tod 0 := by
    intro j
    simp [exitCheck, hd0]
  have hECf : ∀ j, ¬ (duration : ℚ) ≤ env.tod (j + 1) - env.tod 0 →
      exitCheck env duration j = false := by
    intro j hj
    exact Bool.eq_false_iff.mpr (fun h => hj ((hEC j).mp h))
  refine ⟨Nat.find hclk, (hEC _).mpr (Nat.find_spec hclk), ?_, ?_, ?_⟩
  · intro j hj
    exact hECf j (Nat.find_min hclk hj)
  · have := loadgenRun_exits_at env load duration (Nat.find hclk) 0
      (by simpa using (hEC _).mpr (Nat.find_spec hclk))
      (by intro j hj; simpa using hECf j (Nat.find_min hclk hj))
    simpa using this
  · intro fuel m hm
    obtain ⟨j, _, hmj, hcj, hprev⟩ :=
      loadgenRun_some_spec env load duration fuel 0 m hm
    rw [Nat.zero_add] at hcj
    have hle : Nat.find hclk ≤ j := Nat.find_min' hclk ((hEC j).mp hcj)
    have hge : ¬ Nat.find hclk < j := by
      intro hlt
      have := hprev (Nat.find hclk) hlt
      rw [Nat.zero_add] at this
      exact absurd ((hEC _).mpr (Nat.find_spec hclk)) (by simp [this])
    omega

/-- Witness for `c3_terminates_first_check`: a one-second-per-reading clock
and duration 1; the deadline fires at the first check. -/
theorem c3_terminates_first_check_witness :
    (0 : ℕ) < 1 ∧ ((1 : ℕ) : ℚ) ≤ envStep.tod (0 + 1) - envStep.tod 0 ∧
    (∃ n, exitCheck envStep 1 n = true ∧
      (∀ j, j < n → exitCheck envStep 1 j = false) ∧
      (loadgenRun envStep 50 1 (n + 1) 0).2 = some (n + 1) ∧
      (∀ fuel m, (loadgenRun envStep 50 1 fuel 0).2 = some m → m = n + 1)) :=
  ⟨Nat.one_pos, by norm_num [envStep],
    c3_terminates_first_check envStep 50 1 Nat.one_pos
      ⟨0, by norm_num [envStep]⟩⟩

/-- C4: with target load 100 `loadgen` runs in full-load mode: every
iteration is exactly one 1000000-iteration burst of the Workload Unit
followed by the deadline check, and the whole trace consists only of such
bursts — no idle time is ever computed and no idle sleep is ever issued,
whatever the environment, duration or fuel. -/
theorem c4_full_load_no_idle (env : Env) (duration k fuel : ℕ) :
    iterEvents env 100 k = [Event.burst 1000000] ∧
    (loadgenRun env 100 duration fuel k).1 =
      List.replicate (loadgenRun env 100 duration fuel k).1.length
        (Event.burst 1000000) := by
  exact ⟨by simp [iterEvents], loadgenRun_full_trace env duration fuel k⟩

/-- C5 counterexample: when the duration argument is absent, `main` leaves
the global `long int duration` at -1 (line 232 / 238), and the call
`loadgen(cpu, cpuloads[cpu], duration)` (line 177) converts it to the
`unsigned int` value 4294967295.  That value is nonzero, so the deadline
check is armed, and in an environment whose clock shows an elapsed time of
4294967295 seconds the loop terminates of its own accord — contradicting the
claim that with an absent duration the loop never terminates of its own
accord. -/
theorem c5_counterexample :
    intToU32 (-1) = 4294967295 ∧ intToU32 (-1) ≠ 0 ∧
    (loadgenRun envHuge 100 (intToU32 (-1)) 1 0).2 = some 1 := by
  have h : intToU32 (-1) = 4294967295 := by decide
  refine ⟨h, by rw [h]; norm_num, ?_⟩
  rw [h, loadgenRun_snd_succ]
  have hc : exitCheck envHuge 4294967295 0 = true := by
    simp [exitCheck, envHuge]
  rw [hc]
  simp

/-- C5 amended: with duration = 0 the deadline check never fires and the
loop never terminates of its own accord, for any environment, load, fuel and
starting iteration; an absent duration, however, reaches `loadgen` as the
converted value 4294967295, not 0. -/
theorem c5_zero_duration_runs_forever :
    (∀ (env : Env) (k : ℕ), exitCheck env 0 k = false) ∧
    (∀ (env : Env) (load fuel k : ℕ), (loadgenRun env load 0 fuel k).2 = none) ∧
    intToU32 (-1) = 4294967295 := by
  refine ⟨?_, ?_, by decide⟩
  · intro env k
    simp [exitCheck]
  · intro env load fuel k
    exact loadgenRun_zero_duration env load fuel k

/-- C1: in partial-load mode every iteration computes
`total_time = active_time * 100 / (target_load + 1)` from the measured burst
duration, and `idle_time = total_time - active_time`; the divisor is
`target_load + 1`, not `target_load` (for a positive measured burst the two
divisors give different totals). -/
theorem c1_duty_formula (env : Env) (load : ℕ) (k : ℕ) :
    total_time_us load (active_time_us env k) =
      active_time_us env k * 100 / ((load : ℚ) + 1) ∧
    idle_time_us load (active_time_us env k) =
      total_time_us load (active_time_us env k) - active_time_us env k ∧
    (1 ≤ load → 0 < active_time_us env k →
      total_time_us load (active_time_us env k) ≠
        active_time_us env k * 100 / (load : ℚ)) := by
  refine ⟨by rw [total_time_us]; ring, rfl, ?_⟩
  intro hl ha
  have hl0 : (0 : ℚ) < (load : ℚ) := by exact_mod_cast hl
  have hlt : active_time_us env k * 100 / ((load : ℚ) + 1) <
      active_time_us env k * 100 / (load : ℚ) := by
    apply div_lt_div_of_pos_left (by positivity) hl0 (by linarith)
  rw [total_time_us]
  rw [mul_div_assoc] at hlt
  exact ne_of_lt hlt

/-- Witness for `c1_duty_formula` at load 50 and a burst of 1000 µs. -/
theorem c1_duty_formula_witness :
    total_time_us 50 (active_time_us envStep 0) =
      active_time_us envStep 0 * 100 / ((50 : ℚ) + 1) ∧
    total_time_us 50 (active_time_us ⟨fun j => (j : ℚ), fun _ => 0⟩ 0) ≠
      active_time_us ⟨fun j => (j : ℚ), fun _ => 0⟩ 0 * 100 / (50 : ℚ) := by
  constructor
  · exact (c1_duty_formula envStep 50 0).1
  · refine (c1_duty_formula ⟨fun j => (j : ℚ), fun _ => 0⟩ 50 0).2.2 (by norm_num) ?_
    norm_num [active_time_us]

/-- C2: the claim asserts that when `total_time < active_time` the idle time
is clamped to zero before sleeping.  The code performs no clamp: with
load = 50 and a measured `active_time_us` of -1000000 (the wall-clock based
`dtime` is not monotonic, so a negative measured burst is possible, exactly
the jitter scenario the spec names), `total_time < active_time`, the computed
idle time is negative, and the value handed to `usleep` is the huge wrapped
value 4294006512 µs (≈ 71.6 minutes), not 0. -/
theorem c2_no_clamp_eval :
    total_time_us 50 (-1000000) < -1000000 ∧
    idle_time_us 50 (-1000000) < 0 ∧
    usleepArg (idle_time_us 50 (-1000000)) = 4294006512 ∧
    usleepArg (idle_time_us 50 (-1000000)) ≠ 0 := by
  have h : idle_time_us 50 (-1000000) = -49000000 / 51 := by
    norm_num [idle_time_us, total_time_us]
  have h3 : usleepArg (idle_time_us 50 (-1000000)) = 4294006512 := by
    rw [usleepArg, ratTrunc, h]
    norm_num
    rfl
  exact ⟨by norm_num [total_time_us], by rw [h]; norm_num, h3,
    by rw [h3]; norm_num⟩

/-- C7: for a fixed positive measured burst, the computed idle time is
strictly decreasing in the target load over [1, 99]; in particular
target_load = 1 yields the largest idle duration among all targets in
[2, 99]. -/
theorem c7_idle_strict_anti (a : ℚ) (ha : 0 < a) :
    (∀ l1 l2 : ℕ, 1 ≤ l1 → l1 < l2 → l2 ≤ 99 →
      idle_time_us l2 a < idle_time_us l1 a) ∧
    (∀ l : ℕ, 2 ≤ l → l ≤ 99 → idle_time_us l a < idle_time_us 1 a) := by
  have key : ∀ l1 l2 : ℕ, l1 < l2 → idle_time_us l2 a < idle_time_us l1 a := by
    intro l1 l2 h
    have h1 : (0 : ℚ) < (l1 : ℚ) + 1 := by positivity
    have h2 : ((l1 : ℚ) + 1) < ((l2 : ℚ) + 1) := by
      have : (l1 : ℚ) < (l2 : ℚ) := by exact_mod_cast h
      linarith
    have hdiv : (100 : ℚ) / ((l2 : ℚ) + 1) < 100 / ((l1 : ℚ) + 1) :=
      div_lt_div_of_pos_left (by norm_num) h1 h2
    have := mul_lt_mul_of_pos_left hdiv ha
    simp only [idle_time_us, total_time_us]
    linarith
  exact ⟨fun l1 l2 _ h _ => key l1 l2 h, fun l h2 _ => key 1 l h2⟩

/-- Witness for `c7_idle_strict_anti` at a = 2: idle at load 2 is below idle
at load 1. -/
theorem c7_idle_strict_anti_witness :
    (0 : ℚ) < 2 ∧ idle_time_us 2 2 < idle_time_us 1 2 :=
  ⟨by norm_num, (c7_idle_strict_anti 2 (by norm_num)).1 1 2 (by norm_num)
    (by norm_num) (by norm_num)⟩

/-- C8: `workload` performs exactly N operations, one square root of one
pseudo-random input per iteration, consuming the N consecutive stream values
starting at the current position, with no early exit; nothing else is
produced or modified. -/
theorem c8_workload_ops (rands : ℕ → ℕ) (pos N : ℕ) :
    (workload rands pos N).length = N ∧
    workload rands pos N = (List.range' pos N).map rands := by
  induction N generalizing pos with
  | zero => simp [workload]
  | succ n ih =>
    refine ⟨?_, ?_⟩
    · simp [workload, (ih (pos + 1)).1]
    · rw [workload, (ih (pos + 1)).2, List.range'_succ, List.map_cons]

/-- A fold by max is bounded by any bound on the initial value and the
elements. -/
theorem foldl_max_le_bound (l : List ℕ) :
    ∀ a b, a ≤ b → (∀ x ∈ l, x ≤ b) → l.foldl max a ≤ b := by
  induction l with
  | nil =>
    intro a b hab _
    simpa using hab
  | cons y t ih =>
    intro a b hab h
    simp only [List.foldl_cons]
    exact ih (max a y) b (max_le hab (h y (by simp))) fun x hx => h x (by simp [hx])

/-- A fold by max dominates its initial value. -/
theorem le_foldl_max_init (l : List ℕ) : ∀ a, a ≤ l.foldl max a := by
  induction l with
  | nil =>
    intro a
    simp
  | cons y t ih =>
    intro a
    simp only [List.foldl_cons]
    exact le_trans (le_max_left a y) (ih (max a y))

/-- A fold by max dominates every element. -/
theorem mem_le_foldl_max (l : List ℕ) : ∀ a x, x ∈ l → x ≤ l.foldl max a := by
  induction l with
  | nil =>
    intro a x hx
    simp at hx
  | cons y t ih =>
    intro a x hx
    simp only [List.foldl_cons]
    rcases List.mem_cons.mp hx with h | h
    · subst h
      exact le_trans (le_max_right a x) (le_foldl_max_init t (max a x))
    · exact ih (max a y) x h

/-- Under the mutex handoff ordering, the write times are strictly
increasing in spawn order. -/
theorem wr_strict_mono (s : SpawnTrace) (hs : wellSynced s) :
    ∀ j2 j1, j1 < j2 → j2 < s.m → s.wr j1 < s.wr j2 := by
  intro j2
  induction j2 with
  | zero =>
    intro j1 h _
    omega
  | succ j ih =>
    intro j1 h hm
    have h1 := hs j (by omega)
    have hchain : s.wr j < s.wr (j + 1) :=
      lt_trans (lt_trans h1.1 h1.2.1) (h1.2.2 hm)
    rcases Nat.lt_succ_iff_lt_or_eq.mp h with h2 | h2
    · exact lt_trans (ih j1 h2 (by omega)) hchain
    · subst h2
      exact hchain

/-- Under the mutex handoff ordering, the latest write at or before the k-th
thread's read time is the k-th write: the value the thread copies is the one
stored for it. -/
theorem lastWriteIdx_rd (s : SpawnTrace) (hs : wellSynced s) (k : ℕ)
    (hk : k < s.m) : lastWriteIdx s (s.rd k) = k := by
  rw [lastWriteIdx]
  have hkmem : k ∈ (List.range s.m).filter (fun j => decide (s.wr j ≤ s.rd k)) :=
    List.mem_filter.mpr ⟨List.mem_range.mpr hk, by simp [le_of_lt (hs k hk).1]⟩
  have hub : ∀ x ∈ (List.range s.m).filter (fun j => decide (s.wr j ≤ s.rd k)),
      x ≤ k := by
    intro x hx
    obtain ⟨hxr, hxw⟩ := List.mem_filter.mp hx
    have hxm : x < s.m := List.mem_range.mp hxr
    have hwx : s.wr x ≤ s.rd k := by simpa using hxw
    by_contra hxk
    push_neg at hxk
    have hk1m : k + 1 < s.m := by omega
    have h1 := hs k hk
    have hwk1 : s.rd k < s.wr (k + 1) := lt_trans h1.2.1 (h1.2.2 hk1m)
    have hup : s.wr (k + 1) ≤ s.wr x := by
      rcases Nat.eq_or_lt_of_le hxk with heq | hlt
      · rw [show k + 1 = x from heq]
      · exact le_of_lt (wr_strict_mono s hs x (k + 1) hlt hxm)
    omega
  exact le_antisymm (foldl_max_le_bound _ 0 k (Nat.zero_le k) hub)
    (mem_le_foldl_max _ 0 k hkmem)

/-- C6: under the ordering forced by the `mutex1` handoff (each thread copies
the shared index after it was written for it and before releasing the mutex,
and the orchestrator writes the next index only after that release), every
spawned thread observes exactly the core index written for it at spawn time,
and when the written indices are distinct no two threads observe the same
index. -/
theorem c6_private_copy (s : SpawnTrace) (hs : wellSynced s) :
    (∀ k, k < s.m → observed s k = s.val k) ∧
    ((∀ k1 k2, k1 < s.m → k2 < s.m → s.val k1 = s.val k2 → k1 = k2) →
      ∀ k1 k2, k1 < s.m → k2 < s.m → observed s k1 = observed s k2 →
        k1 = k2) := by
  have hobs : ∀ k, k < s.m → observed s k = s.val k := by
    intro k hk
    rw [observed, lastWriteIdx_rd s hs k hk]
  refine ⟨hobs, ?_⟩
  intro hinj k1 k2 h1 h2 hoo
  rw [hobs k1 h1, hobs k2 h2] at hoo
  exact hinj k1 k2 h1 h2 hoo

/-- Witness for `c6_private_copy`: the two-thread trace with the handoff
interleaving; each thread observes its own index. -/
theorem c6_private_copy_witness :
    wellSynced traceTwo ∧ observed traceTwo 0 = traceTwo.val 0 ∧
    observed traceTwo 1 = traceTwo.val 1 := by
  have hws : wellSynced traceTwo := by
    intro k hk
    simp only [traceTwo]
    exact ⟨by omega, by omega, fun h => by omega⟩
  exact ⟨hws, (c6_private_copy traceTwo hws).1 0 (by norm_num [traceTwo]),
    (c6_private_copy traceTwo hws).1 1 (by norm_num [traceTwo])⟩

/-- C9: when every `pthread_create` succeeds, the orchestrator starts
exactly one task per core whose load is set (the started indices are exactly
the in-range indices with a configured load, without duplicates), every core
with no assigned load receives no task, and the set of joined tasks is
exactly the set of started tasks. -/
theorem c9_spawn_join (cpuloads : List ℤ) (ok : ℕ → Bool)
    (hok : ∀ i, ok i = true) :
    startedTasks cpuloads ok = joinedTasks cpuloads ∧
    (∀ i, i ∈ startedTasks cpuloads ok ↔
      (i < cpuloads.length ∧ cpuloads.getD i (-1) ≠ -1)) ∧
    (startedTasks cpuloads ok).Nodup ∧
    (∀ i, i < cpuloads.length → cpuloads.getD i (-1) = -1 →
      i ∉ startedTasks cpuloads ok) := by
  have hmem : ∀ i, i ∈ startedTasks cpuloads ok ↔
      (i < cpuloads.length ∧ cpuloads.getD i (-1) ≠ -1) := by
    intro i
    rw [startedTasks]
    simp [List.mem_filter, List.mem_range, hok i]
  refine ⟨?_, hmem, ?_, ?_⟩
  · rw [startedTasks, joinedTasks]
    apply List.filter_congr
    intro i _
    simp [hok i]
  · exact (List.nodup_range _).filter _
  · intro i hi hload hmem2
    exact absurd hload ((hmem i).mp hmem2).2

/-- Witness for `c9_spawn_join`: loads [100, -1, 50] with all creations
succeeding; cores 0 and 2 are started and joined, core 1 is skipped. -/
theorem c9_spawn_join_witness :
    startedTasks [100, -1, 50] (fun _ => true) = joinedTasks [100, -1, 50] ∧
    0 ∈ startedTasks [100, -1, 50] (fun _ => true) ∧
    1 ∉ startedTasks [100, -1, 50] (fun _ => true) := by
  have h := c9_spawn_join [100, -1, 50] (fun _ => true) (fun _ => rfl)
  refine ⟨h.1, (h.2.1 0).mpr ⟨by norm_num, by decide⟩,
    h.2.2.2 1 (by norm_num) (by decide)⟩

/-- C10: `thread_loadgen` guards `loadgen`: it invokes `loadgen` (with the
cpu's configured load and the shared duration) exactly when the received cpu
index is below the detected core count, and otherwise reports the invalid-cpu
error and exits without generating any load. -/
theorem c10_thread_guard (cpu_count : ℕ) (cpuloads : ℕ → ℤ) (dur : ℤ)
    (cpu : ℕ) :
    (cpu < cpu_count →
      thread_loadgen cpu_count cpuloads dur cpu =
        ThreadResult.ran cpu (intToU32 (cpuloads cpu)) (intToU32 dur)) ∧
    (cpu_count ≤ cpu →
      thread_loadgen cpu_count cpuloads dur cpu = ThreadResult.invalidCpu cpu ∧
      ∀ a b c, thread_loadgen cpu_count cpuloads dur cpu ≠
        ThreadResult.ran a b c) := by
  constructor
  · intro h
    simp [thread_loadgen, h]
  · intro h
    have h2 : ¬ cpu < cpu_count := not_lt.mpr h
    refine ⟨by simp [thread_loadgen, h2], ?_⟩
    intro a b c
    simp [thread_loadgen, h2]

/-- Witness for `c10_thread_guard`: with 2 cores, cpu 0 runs `loadgen` and
cpu 5 is rejected. -/
theorem c10_thread_guard_witness :
    thread_loadgen 2 (fun _ => 100) (-1) 0 =
      ThreadResult.ran 0 (intToU32 100) (intToU32 (-1)) ∧
    thread_loadgen 2 (fun _ => 100) (-1) 5 = ThreadResult.invalidCpu 5 :=
  ⟨(c10_thread_guard 2 (fun _ => 100) (-1) 0).1 (by norm_num),
   ((c10_thread_guard 2 (fun _ => 100) (-1) 5).2 (by norm_num)).1⟩

end Cpuloadgen
